import Mathlib

/-!
Verification of the batched concurrent Monkey-test runner of
`MonkeyProTest.py`.

The development shallowly embeds the parts of the program the claims are
about:

* `monkey_cmd` — the f-string command built at line 269 inside
  `run_monkey_command`;
* `resolvePackages` — the package-list resolution at lines 296-302 of
  `execute_adb_command` (the branch on the literal string "all" and the
  parsing of the `adb shell pm list packages` output);
* `mkBatches` — the slicing loop `for i in range(0, len(packages),
  batch_size)` at lines 309-310;
* `run_monkey_command` — the per-package process runner at lines 268-293,
  modelled over an abstract process outcome supplied as input;
* `execute_adb_command` — the orchestrator at lines 295-316, modelled as
  the list of externally visible actions (log lines, submissions, joins,
  sleeps) it performs in program order;
* `PStep` / `Reachable` — a small operational model of the thread-pool
  execution of one session, used for the temporal claims about batch
  ordering and intra-batch concurrency.
-/

namespace MonkeyProTest

/-- Line 269 of the source: the command string
`adb -s {device} shell CLASSPATH={class_path} exec app_process /system/bin
com.android.commands.monkey.Monkey -p {package_name} --agent reuseq
--running-minutes {minutes} --throttle {throttle} --pct-touch 30 -v -v`
built by string interpolation inside `run_monkey_command`. -/
def monkey_cmd (device class_path package_name : String)
    (minutes throttle : Nat) : String :=
  "adb -s " ++ device ++ " shell CLASSPATH=" ++ class_path ++
    " exec app_process /system/bin com.android.commands.monkey.Monkey -p " ++
    package_name ++ " --agent reuseq --running-minutes " ++ toString minutes ++
    " --throttle " ++ toString throttle ++ " --pct-touch 30 -v -v"

/-- Containment of `v` in `s` as a verbatim contiguous substring. -/
def ContainsSub (s v : String) : Prop := ∃ l r, s = l ++ v ++ r

/-- Splitting of a character list at every occurrence of `sep`,
accumulating the current field in `acc` (reversed).  This is the
semantics of Python `str.split` with a one-character separator:
`"a:b:c" ↦ ["a","b","c"]`, `"" ↦ [""]`, `"a:" ↦ ["a",""]`. -/
def splitCharAux (sep : Char) : List Char → List Char → List String
  | [], acc => [String.mk acc.reverse]
  | c :: cs, acc =>
      if c = sep then String.mk acc.reverse :: splitCharAux sep cs []
      else splitCharAux sep cs (c :: acc)

/-- Python `line.split(sep)` for a one-character separator. -/
def py_split (line : String) (sep : Char) : List String :=
  splitCharAux sep line.data []

/-- Python `line.startswith(pre)`. -/
def py_startswith (line pre : String) : Bool :=
  pre.data.isPrefixOf line.data

/-- Python `line.strip()`: leading and trailing whitespace removed. -/
def py_strip (line : String) : String :=
  String.mk
    (((line.data.dropWhile Char.isWhitespace).reverse.dropWhile
      Char.isWhitespace).reverse)

/-- Line 300 of the source: `line.split(':')[1]`, the second
colon-separated field of a line of `pm list packages` output.  Every line
that passes the `line.startswith('package:')` filter contains a colon, so
the Python index `[1]` always exists; the default value of `getD` is
never used on filtered lines. -/
def splitSecondField (line : String) : String :=
  (py_split line ':').getD 1 ""

/-- Lines 296-302 of the source: inside `execute_adb_command`, if
`package_name == 'all'` the package list is built from the decoded
stdout lines of `adb -s {device} shell pm list packages` by keeping the
lines starting with `package:` and taking the second colon-separated
field of each; otherwise the list is the singleton `[package_name]`. -/
def resolvePackages (package_name : String) (pmLines : List String) :
    List String :=
  if package_name = "all" then
    (pmLines.filter (fun l => py_startswith l "package:")).map splitSecondField
  else
    [package_name]

/-- Lines 306 and 309-310 of the source: `batch_size = 4` and the loop
`for i in range(0, len(packages), batch_size): batch = packages[i:i +
batch_size]`, which slices the package list into consecutive chunks of at
most `b` elements.  The `b = 0` guard is unreachable in the source (the
batch size is the constant 4). -/
def mkBatches (b : Nat) (l : List α) : List (List α) :=
  if hb : b = 0 then []
  else
    match l with
    | [] => []
    | x :: xs => (x :: xs).take b :: mkBatches b ((x :: xs).drop b)
termination_by l.length
decreasing_by
  simp only [List.length_drop, List.length_cons]
  have hbpos : 0 < b := Nat.pos_of_ne_zero hb
  omega

/-- Python exceptions distinguished by the two handlers at lines 290-293
of the source (`except subprocess.CalledProcessError` and the generic
`except Exception`).  `attributeError` is the `AttributeError` raised by
an attribute access on `None`. -/
inductive PyExc
  | calledProcessError (info : String)
  | attributeError (info : String)
  | otherError (info : String)
deriving DecidableEq, Repr

/-- Observable behaviour of a successfully spawned child process, as
`run_monkey_command` consumes it: the stdout lines read by the
`for line in process.stdout` loop at line 277, an exception raised while
reading the stream or waiting (if any), and the exit code reported by
`process.wait()` at line 281. -/
structure ProcResult where
  linesRead : List String
  readError : Option PyExc
  returncode : Int
deriving DecidableEq, Repr

/-- Outcome of the `subprocess.Popen` call at line 275: either the spawn
itself raises, or it yields a process. -/
inductive SpawnOutcome
  | raises (e : PyExc)
  | spawned (p : ProcResult)
deriving DecidableEq, Repr

/-- Log levels used by this component. -/
inductive Level
  | info
  | error
  | debug
deriving DecidableEq, Repr

/-- The log messages emitted by `run_monkey_command` and
`execute_adb_command`, one constructor per `logger.…(f"…")` call site:
`execCmd` line 271, `runParams` line 272, `outputLine` line 278,
`pkgFailed` line 286, `pkgDone` line 288, `cmdFailed` line 291,
`unknownError` line 293, `countPkgs` line 304, `execPkg` line 312. -/
inductive LogMsg
  | execCmd (cmd : String)
  | runParams (minutes throttle : Nat)
  | outputLine (line : String)
  | pkgFailed (package_name : String) (errText : String)
  | pkgDone (package_name : String)
  | cmdFailed (e : PyExc)
  | unknownError (e : PyExc)
  | countPkgs (n : Nat)
  | execPkg (package_name : String)
deriving DecidableEq, Repr

/-- Line 285 of the source: `process.stderr.read()`.  The process was
spawned at line 275 with `stderr=subprocess.STDOUT`, so `process.stderr`
is `None` (Python sets the `stderr` attribute only when the argument was
`PIPE`); the attribute access `.read()` on `None` therefore raises
`AttributeError` and never yields the error text. -/
def stderrRead : Except PyExc String :=
  Except.error (PyExc.attributeError "NoneType object has no attribute read")

/-- Lines 274-288 of the source: the body of the `try` block of
`run_monkey_command`.  Returns the log lines emitted before the block
ends and the exception that escapes the block, if any. -/
def tryBody (package_name : String) (o : SpawnOutcome) :
    List (Level × LogMsg) × Option PyExc :=
  match o with
  | SpawnOutcome.raises e => ([], some e)
  | SpawnOutcome.spawned p =>
      let outLogs := p.linesRead.map
        (fun l => (Level.info, LogMsg.outputLine (py_strip l)))
      match p.readError with
      | some e => (outLogs, some e)
      | none =>
          if p.returncode ≠ 0 then
            match stderrRead with
            | Except.error e => (outLogs, some e)
            | Except.ok errText =>
                (outLogs ++ [(Level.error, LogMsg.pkgFailed package_name errText)],
                  none)
          else
            (outLogs ++ [(Level.info, LogMsg.pkgDone package_name)], none)

/-- Lines 290-293 of the source: the two `except` clauses, which convert
any exception escaping the `try` block into a single ERROR log line. -/
def handleExc (e : PyExc) : Level × LogMsg :=
  match e with
  | PyExc.calledProcessError _ => (Level.error, LogMsg.cmdFailed e)
  | _ => (Level.error, LogMsg.unknownError e)

/-- Lines 268-293 of the source: `run_monkey_command`, modelled as the
list of log lines it emits for one package given the abstract outcome of
its child process.  The two header lines (271-272) precede the `try`
block; every exception raised inside the block is handled, so the
function always returns normally. -/
def run_monkey_command (device class_path package_name : String)
    (minutes throttle : Nat) (o : SpawnOutcome) : List (Level × LogMsg) :=
  (Level.info, LogMsg.execCmd (monkey_cmd device class_path package_name minutes throttle)) ::
    (Level.info, LogMsg.runParams minutes throttle) ::
    (let r := tryBody package_name o
     r.1 ++
       match r.2 with
       | some e => [handleExc e]
       | none => [])

/-- Externally visible actions of `execute_adb_command`, in program
order: a log call, a `executor.submit` call (line 313), the join over
the futures of one batch (lines 314-315), and a `time.sleep` call
(line 316). -/
inductive Action
  | log (lvl : Level) (msg : LogMsg)
  | submit (package_name : String)
  | joinAll
  | sleep (seconds : Nat)
deriving DecidableEq, Repr

/-- Lines 310-316 of the source: the actions performed for one batch —
the per-package `正在执行包名` INFO lines (311-312), one submission per
package together with the log lines of the submitted
`run_monkey_command` call (313), the join over the batch futures
(314-315), and the 10-second inter-batch sleep (316, `delay = 10` from
line 307). -/
def batchChunk (device class_path : String) (minutes throttle : Nat)
    (outcomes : String → SpawnOutcome) (batch : List String) : List Action :=
  batch.map (fun p => Action.log Level.info (LogMsg.execPkg p)) ++
    batch.flatMap (fun p =>
      Action.submit p ::
        (run_monkey_command device class_path p minutes throttle (outcomes p)).map
          (fun lm => Action.log lm.1 lm.2)) ++
    [Action.joinAll, Action.sleep 10]

/-- Lines 295-316 of the source: `execute_adb_command`, modelled as the
list of actions it performs.  `pmLines` is the decoded stdout of the
`adb shell pm list packages` collaborator consulted in the `'all'`
branch; `outcomes` gives the abstract process outcome of each package's
run; `max_workers` bounds the pool and is irrelevant to which actions
occur.  The count line is line 304, the batching constant 4 is line
306. -/
def execute_adb_command (device class_path package_name : String)
    (minutes throttle max_workers : Nat) (pmLines : List String)
    (outcomes : String → SpawnOutcome) : List Action :=
  Action.log Level.info
      (LogMsg.countPkgs (resolvePackages package_name pmLines).length) ::
    (mkBatches 4 (resolvePackages package_name pmLines)).flatMap
      (batchChunk device class_path minutes throttle outcomes)

/-- Recogniser for sleep actions. -/
def isSleep : Action → Bool
  | Action.sleep _ => true
  | _ => false

/-- Recogniser for log actions. -/
def isLog : Action → Bool
  | Action.log _ _ => true
  | _ => false

/-- Number of log lines in an action list. -/
def logCount (acts : List Action) : Nat := (acts.filter isLog).length

/-- Number of sleeps in an action list. -/
def sleepCount (acts : List Action) : Nat := (acts.filter isSleep).length

/-- The non-log actions (submissions, joins, sleeps) of an action list:
the control skeleton of the orchestrator. -/
def nonLogActions (acts : List Action) : List Action :=
  acts.filter (fun a => !isLog a)

/-- A failing individual run in the sense of the specification: the
spawn raised, the stream read raised, or the child exited non-zero. -/
def RunFails (o : SpawnOutcome) : Prop :=
  match o with
  | SpawnOutcome.raises _ => True
  | SpawnOutcome.spawned p => p.readError.isSome = true ∨ p.returncode ≠ 0

/-- The package list described by claim C10: for each line of the
`pm list packages` output that starts with `package:`, the second
colon-separated field of that line, in output order. -/
def claimPackageList (pmLines : List String) : List String :=
  pmLines.filterMap (fun l =>
    if py_startswith l "package:" then some ((py_split l ':').getD 1 "")
    else none)

/-- A benign process outcome: no output, clean exit. -/
def sampleOutcomes : String → SpawnOutcome :=
  fun _ => SpawnOutcome.spawned ⟨[], none, 0⟩

/-- An always-failing process outcome: every spawn raises. -/
def failAllOutcomes : String → SpawnOutcome :=
  fun _ => SpawnOutcome.raises (PyExc.otherError "boom")

/-- A run whose child process exits with code 1 after producing no
output: the concrete failing input for claim C4. -/
def c4FailingRun : ProcResult := ⟨[], none, 1⟩

/-- A run that produced one output line and then exited with code 1. -/
def c3FailOutcome : SpawnOutcome := SpawnOutcome.spawned ⟨["event 1"], none, 1⟩

/-! ### Operational model of the thread pool

The temporal claims (C2 and C9) are about which interleavings the
`ThreadPoolExecutor` usage at lines 295-315 admits.  The model below has
one orchestrator and a pool of at most `W` concurrently running tasks.
`sizes` lists the sizes of the batches in order (`(mkBatches 4
packages).map List.length` for a session).  A state holds the number of
fully joined batches, the statuses of the tasks of the currently
submitted batch (if one is in flight), and the trace of start/finish
events, newest first.

The four transitions mirror the source: `submit` models lines 310-313 —
a new batch of futures is created only when no batch is in flight, which
the `for future in futures: future.result()` join at lines 314-315
guarantees; `start` models a pool worker picking up a submitted task,
allowed only while fewer than `W` tasks of the batch are running;
`finish` models a task completing (successfully or not — a failed
`run_monkey_command` also just returns); `join` models the orchestrator
passing the join point once every future of the batch has resolved. -/

/-- Status of one submitted task. -/
inductive TStatus
  | pending
  | started
  | finished
deriving DecidableEq, Repr

/-- Start/finish events of task `i` of batch `b`. -/
inductive PEvent
  | start (b i : Nat)
  | finish (b i : Nat)
deriving DecidableEq, Repr

/-- State of one session run: `done` batches fully joined, the statuses
of the current batch when one is in flight, and the event trace (newest
first). -/
structure RState where
  done : Nat
  current : Option (List TStatus)
  events : List PEvent
deriving DecidableEq, Repr

/-- Number of currently running tasks of the batch in flight. -/
def runningCount (l : List TStatus) : Nat :=
  (l.filter (fun t => t = TStatus.started)).length

/-- One transition of the pool model; see the section comment. -/
inductive PStep (sizes : List Nat) (W : Nat) : RState → RState → Prop
  | submit (s : RState) (hc : s.current = none) (hd : s.done < sizes.length) :
      PStep sizes W s
        { done := s.done,
          current := some (List.replicate (sizes.getD s.done 0) TStatus.pending),
          events := s.events }
  | start (s : RState) (l : List TStatus) (i : Nat)
      (hc : s.current = some l) (hi : l[i]? = some TStatus.pending)
      (hw : runningCount l < W) :
      PStep sizes W s
        { done := s.done, current := some (l.set i TStatus.started),
          events := PEvent.start s.done i :: s.events }
  | finish (s : RState) (l : List TStatus) (i : Nat)
      (hc : s.current = some l) (hi : l[i]? = some TStatus.started) :
      PStep sizes W s
        { done := s.done, current := some (l.set i TStatus.finished),
          events := PEvent.finish s.done i :: s.events }
  | join (s : RState) (l : List TStatus) (hc : s.current = some l)
      (hall : ∀ t ∈ l, t = TStatus.finished) :
      PStep sizes W s
        { done := s.done + 1, current := none, events := s.events }

/-- The initial state of a session: nothing joined, nothing in flight,
empty trace. -/
def initState : RState := ⟨0, none, []⟩

/-- States reachable by the pool model. -/
def Reachable (sizes : List Nat) (W : Nat) (s : RState) : Prop :=
  Relation.ReflTransGen (PStep sizes W) initState s

/-- Decides whether, in a newest-first trace, event `a` occurs strictly
earlier (deeper in the list) than some occurrence of event `b`. -/
def occursBefore (tr : List PEvent) (a b : PEvent) : Bool :=
  match tr with
  | [] => false
  | x :: xs =>
      (decide (x = b) && xs.any (fun y => decide (y = a))) ||
        occursBefore xs a b

/-- The inductive invariant of the pool model, tying task statuses to
the event trace.  `curLen`: an in-flight batch is in range and has the
declared size.  `finIff`/`startIff`: a task of the in-flight batch is
finished (resp. not pending) exactly when its finish (resp. start) event
is in the trace.  `doneEv`: every task of every joined batch has both
events in the trace.  `evBound`: events only concern joined batches or
the batch in flight.  `history`: whenever a start event of batch `b` is
in the trace, the finish events of every task of every earlier batch
occur deeper (earlier in time) in the trace. -/
structure Inv (sizes : List Nat) (s : RState) : Prop where
  curLen : ∀ l, s.current = some l →
    s.done < sizes.length ∧ l.length = sizes.getD s.done 0
  finIff : ∀ l i, s.current = some l →
    (l[i]? = some TStatus.finished ↔ PEvent.finish s.done i ∈ s.events)
  startIff : ∀ l i t, s.current = some l → l[i]? = some t →
    (t ≠ TStatus.pending ↔ PEvent.start s.done i ∈ s.events)
  doneEv : ∀ b, b < s.done → ∀ i, i < sizes.getD b 0 →
    PEvent.finish b i ∈ s.events ∧ PEvent.start b i ∈ s.events
  evBound : ∀ b i,
    PEvent.start b i ∈ s.events ∨ PEvent.finish b i ∈ s.events →
    b < s.done ∨ (s.current ≠ none ∧ b = s.done)
  history : ∀ l₁ b i l₂, s.events = l₁ ++ PEvent.start b i :: l₂ →
    ∀ b', b' < b → ∀ i', i' < sizes.getD b' 0 → PEvent.finish b' i' ∈ l₂

/-- The trace (newest first) of the starts of tasks `0 … n-1` of batch 0,
started in index order. -/
def startsEv : Nat → List PEvent
  | 0 => []
  | n + 1 => PEvent.start 0 n :: startsEv n

/-- The trace (newest first) of the finishes of tasks `0 … n-1` of batch
0, finished in index order. -/
def finishEv : Nat → List PEvent
  | 0 => []
  | n + 1 => PEvent.finish 0 n :: finishEv n

/-- Task-status list of batch 0 in the all-overlap execution: `a` tasks
in status `x` followed by `b` tasks in status `y`. -/
def stlist (a b : Nat) (x y : TStatus) : List TStatus :=
  List.replicate a x ++ List.replicate b y

/-! ### Theorems -/

theorem mkBatches_nil (b : Nat) : mkBatches b ([] : List α) = [] := by
  rw [mkBatches]
  split <;> rfl

theorem mkBatches_cons (b : Nat) (hb : b ≠ 0) (l : List α) (hl : l ≠ []) :
    mkBatches b l = l.take b :: mkBatches b (l.drop b) := by
  rw [mkBatches.eq_def]
  rcases l with _ | ⟨x, xs⟩
  · exact absurd rfl hl
  · simp [hb]

theorem mkBatches4_singleton (a : α) : mkBatches 4 [a] = [[a]] := by
  rw [mkBatches_cons 4 (by omega) [a] (by simp)]
  simp [mkBatches_nil]

theorem mkBatches_ne_nil (l : List α) (hl : l ≠ []) : mkBatches 4 l ≠ [] := by
  rw [mkBatches_cons 4 (by omega) l hl]
  simp

theorem mkBatches4_length_le :
    ∀ (n : Nat) (l : List α), l.length ≤ n →
      (mkBatches 4 l).length = (l.length + 3) / 4 := by
  intro n
  induction n with
  | zero =>
      intro l hl
      have : l = [] := List.eq_nil_of_length_eq_zero (Nat.le_zero.mp hl)
      subst this
      simp [mkBatches_nil]
  | succ n ih =>
      intro l hl
      by_cases h : l = []
      · subst h; simp [mkBatches_nil]
      · rw [mkBatches_cons 4 (by omega) l h]
        have hpos : 0 < l.length := List.length_pos.mpr h
        have hdrop : (l.drop 4).length = l.length - 4 := List.length_drop 4 l
        have := ih (l.drop 4) (by omega)
        simp only [List.length_cons, this, hdrop]
        omega

theorem mkBatches4_join_le :
    ∀ (n : Nat) (l : List α), l.length ≤ n → (mkBatches 4 l).flatten = l := by
  intro n
  induction n with
  | zero =>
      intro l hl
      have : l = [] := List.eq_nil_of_length_eq_zero (Nat.le_zero.mp hl)
      subst this
      simp [mkBatches_nil]
  | succ n ih =>
      intro l hl
      by_cases h : l = []
      · subst h; simp [mkBatches_nil]
      · rw [mkBatches_cons 4 (by omega) l h]
        have hpos : 0 < l.length := List.length_pos.mpr h
        have hdrop : (l.drop 4).length = l.length - 4 := List.length_drop 4 l
        have := ih (l.drop 4) (by omega)
        simp only [List.flatten_cons, this, List.take_append_drop]

theorem mkBatches4_mem_le :
    ∀ (n : Nat) (l : List α), l.length ≤ n →
      ∀ batch ∈ mkBatches 4 l, batch.length ≤ 4 := by
  intro n
  induction n with
  | zero =>
      intro l hl
      have : l = [] := List.eq_nil_of_length_eq_zero (Nat.le_zero.mp hl)
      subst this
      simp [mkBatches_nil]
  | succ n ih =>
      intro l hl batch hmem
      by_cases h : l = []
      · subst h; simp [mkBatches_nil] at hmem
      · rw [mkBatches_cons 4 (by omega) l h] at hmem
        have hpos : 0 < l.length := List.length_pos.mpr h
        have hdrop : (l.drop 4).length = l.length - 4 := List.length_drop 4 l
        rcases List.mem_cons.mp hmem with heq | htail
        · subst heq
          simpa using List.length_take_le 4 l
        · exact ih (l.drop 4) (by omega) batch htail

/-- C1: the runner, with its batch size 4, partitions the package list
into exactly `ceil(N/4)` consecutive batches of length at most 4 whose
concatenation in processing order is exactly the input list (no
duplicates, no omissions, input order preserved). -/
theorem c1_batches_partition (packages : List String) :
    (mkBatches 4 packages).length = (packages.length + 3) / 4 ∧
    (mkBatches 4 packages).flatten = packages ∧
    ∀ batch ∈ mkBatches 4 packages, batch.length ≤ 4 := by
  exact ⟨mkBatches4_length_le packages.length packages le_rfl,
    mkBatches4_join_le packages.length packages le_rfl,
    mkBatches4_mem_le packages.length packages le_rfl⟩

/-- C8: command construction is pure and deterministic — identical
inputs give the identical command string — and the resulting string
contains the device id, the classpath, the package name, the rendered
minutes and throttle values verbatim, together with the fixed flags
`--pct-touch 30 -v -v`. -/
theorem c8_command_builder (d₁ d₂ c₁ c₂ p₁ p₂ : String) (m₁ m₂ t₁ t₂ : Nat)
    (hd : d₁ = d₂) (hc : c₁ = c₂) (hp : p₁ = p₂) (hm : m₁ = m₂)
    (ht : t₁ = t₂) :
    monkey_cmd d₁ c₁ p₁ m₁ t₁ = monkey_cmd d₂ c₂ p₂ m₂ t₂ ∧
    ContainsSub (monkey_cmd d₁ c₁ p₁ m₁ t₁) d₁ ∧
    ContainsSub (monkey_cmd d₁ c₁ p₁ m₁ t₁) c₁ ∧
    ContainsSub (monkey_cmd d₁ c₁ p₁ m₁ t₁) p₁ ∧
    ContainsSub (monkey_cmd d₁ c₁ p₁ m₁ t₁) (toString m₁) ∧
    ContainsSub (monkey_cmd d₁ c₁ p₁ m₁ t₁) (toString t₁) ∧
    ContainsSub (monkey_cmd d₁ c₁ p₁ m₁ t₁) "--pct-touch 30 -v -v" := by
  subst hd hc hp hm ht
  refine ⟨rfl, ?_, ?_, ?_, ?_, ?_, ?_⟩
  · exact ⟨"adb -s ",
      " shell CLASSPATH=" ++ c₁ ++
        " exec app_process /system/bin com.android.commands.monkey.Monkey -p " ++
        p₁ ++ " --agent reuseq --running-minutes " ++ toString m₁ ++
        " --throttle " ++ toString t₁ ++ " --pct-touch 30 -v -v",
      by simp [monkey_cmd, String.append_assoc]⟩
  · exact ⟨"adb -s " ++ d₁ ++ " shell CLASSPATH=",
      " exec app_process /system/bin com.android.commands.monkey.Monkey -p " ++
        p₁ ++ " --agent reuseq --running-minutes " ++ toString m₁ ++
        " --throttle " ++ toString t₁ ++ " --pct-touch 30 -v -v",
      by simp [monkey_cmd, String.append_assoc]⟩
  · exact ⟨"adb -s " ++ d₁ ++ " shell CLASSPATH=" ++ c₁ ++
        " exec app_process /system/bin com.android.commands.monkey.Monkey -p ",
      " --agent reuseq --running-minutes " ++ toString m₁ ++
        " --throttle " ++ toString t₁ ++ " --pct-touch 30 -v -v",
      by simp [monkey_cmd, String.append_assoc]⟩
  · exact ⟨"adb -s " ++ d₁ ++ " shell CLASSPATH=" ++ c₁ ++
        " exec app_process /system/bin com.android.commands.monkey.Monkey -p " ++
        p₁ ++ " --agent reuseq --running-minutes ",
      " --throttle " ++ toString t₁ ++ " --pct-touch 30 -v -v",
      by simp [monkey_cmd, String.append_assoc]⟩
  · exact ⟨"adb -s " ++ d₁ ++ " shell CLASSPATH=" ++ c₁ ++
        " exec app_process /system/bin com.android.commands.monkey.Monkey -p " ++
        p₁ ++ " --agent reuseq --running-minutes " ++ toString m₁ ++
        " --throttle ",
      " --pct-touch 30 -v -v",
      by simp [monkey_cmd, String.append_assoc]⟩
  · exact ⟨"adb -s " ++ d₁ ++ " shell CLASSPATH=" ++ c₁ ++
        " exec app_process /system/bin com.android.commands.monkey.Monkey -p " ++
        p₁ ++ " --agent reuseq --running-minutes " ++ toString m₁ ++
        " --throttle " ++ toString t₁ ++ " ",
      "",
      by simp [monkey_cmd, String.append_assoc]⟩

/-- Closed instance of `c8_command_builder` at the example inputs of the
specification (device "D1", classpath "A:B:C", package "com.x", 5
minutes, 500 ms throttle). -/
theorem c8_command_builder_witness :
    monkey_cmd "D1" "A:B:C" "com.x" 5 500 = monkey_cmd "D1" "A:B:C" "com.x" 5 500 ∧
    ContainsSub (monkey_cmd "D1" "A:B:C" "com.x" 5 500) "D1" ∧
    ContainsSub (monkey_cmd "D1" "A:B:C" "com.x" 5 500) "A:B:C" ∧
    ContainsSub (monkey_cmd "D1" "A:B:C" "com.x" 5 500) "com.x" ∧
    ContainsSub (monkey_cmd "D1" "A:B:C" "com.x" 5 500) (toString 5) ∧
    ContainsSub (monkey_cmd "D1" "A:B:C" "com.x" 5 500) (toString 500) ∧
    ContainsSub (monkey_cmd "D1" "A:B:C" "com.x" 5 500) "--pct-touch 30 -v -v" :=
  c8_command_builder "D1" "D1" "A:B:C" "A:B:C" "com.x" "com.x" 5 5 500 500
    rfl rfl rfl rfl rfl

theorem handleExc_fst (e : PyExc) : (handleExc e).1 = Level.error := by
  cases e <;> rfl

/-- C4 (code bug): when the child process exits non-zero — here exit
code 1 with no output — the source never logs the captured error text as
the per-package failure line (`包名 … 运行出错, 错误信息: …`).  Because the
process was spawned with `stderr=subprocess.STDOUT`, `process.stderr` is
`None` and line 285 raises `AttributeError`, so the generic handler logs
`未知错误: …` instead and the `pkgFailed` line is unreachable. -/
theorem c4_nonzero_exit_logs_attribute_error :
    run_monkey_command "D1" "A:B:C" "com.x" 5 500
        (SpawnOutcome.spawned c4FailingRun) =
      [(Level.info, LogMsg.execCmd (monkey_cmd "D1" "A:B:C" "com.x" 5 500)),
       (Level.info, LogMsg.runParams 5 500),
       (Level.error, LogMsg.unknownError
         (PyExc.attributeError "NoneType object has no attribute read"))] ∧
    ∀ pk er, (Level.error, LogMsg.pkgFailed pk er) ∉
      run_monkey_command "D1" "A:B:C" "com.x" 5 500
        (SpawnOutcome.spawned c4FailingRun) := by
  constructor
  · rfl
  · intro pk er hmem
    simp [run_monkey_command, tryBody, stderrRead, handleExc, c4FailingRun]
      at hmem

theorem filter_nonlog_map_log (l : List (Level × LogMsg)) :
    (l.map (fun lm => Action.log lm.1 lm.2)).filter (fun a => !isLog a) = [] := by
  induction l with
  | nil => rfl
  | cons x xs ih =>
      have hx : (fun a => !isLog a) (Action.log x.1 x.2) = false := rfl
      simp only [List.map_cons, List.filter_cons, hx]
      simpa using ih

theorem filter_nonlog_map_execPkg (batch : List String) :
    (batch.map (fun p => Action.log Level.info (LogMsg.execPkg p))).filter
      (fun a => !isLog a) = [] := by
  induction batch with
  | nil => rfl
  | cons x xs ih => simp [isLog, ih]

theorem filter_nonlog_submits (f : String → List (Level × LogMsg))
    (batch : List String) :
    (batch.flatMap (fun p =>
      Action.submit p :: (f p).map (fun lm => Action.log lm.1 lm.2))).filter
        (fun a => !isLog a) = batch.map Action.submit := by
  induction batch with
  | nil => rfl
  | cons p rest ih =>
      simp only [List.flatMap_cons, List.filter_append, List.filter_cons,
        List.map_cons, ih, filter_nonlog_map_log]
      simp [isLog]

/-- The control skeleton of one batch chunk: the submissions in batch
order, the join, and the sleep — independent of the process outcomes. -/
theorem nonLog_batchChunk (device class_path : String)
    (minutes throttle : Nat) (outcomes : String → SpawnOutcome)
    (batch : List String) :
    nonLogActions (batchChunk device class_path minutes throttle outcomes batch) =
      batch.map Action.submit ++ [Action.joinAll, Action.sleep 10] := by
  unfold nonLogActions batchChunk
  rw [List.filter_append, List.filter_append, filter_nonlog_map_execPkg,
    filter_nonlog_submits]
  simp [isLog]

theorem nonLog_flatMap_chunks (device class_path : String)
    (minutes throttle : Nat) (outcomes : String → SpawnOutcome)
    (bs : List (List String)) :
    (bs.flatMap (batchChunk device class_path minutes throttle outcomes)).filter
        (fun a => !isLog a) =
      bs.flatMap (fun batch =>
        batch.map Action.submit ++ [Action.joinAll, Action.sleep 10]) := by
  induction bs with
  | nil => rfl
  | cons b rest ih =>
      simp only [List.flatMap_cons, List.filter_append, ih]
      congr 1
      exact nonLog_batchChunk device class_path minutes throttle outcomes b

/-- The whole control skeleton of `execute_adb_command`, independent of
the process outcomes. -/
theorem nonLog_execute (device class_path package_name : String)
    (minutes throttle max_workers : Nat) (pmLines : List String)
    (outcomes : String → SpawnOutcome) :
    nonLogActions (execute_adb_command device class_path package_name minutes
        throttle max_workers pmLines outcomes) =
      (mkBatches 4 (resolvePackages package_name pmLines)).flatMap
        (fun batch =>
          batch.map Action.submit ++ [Action.joinAll, Action.sleep 10]) := by
  unfold execute_adb_command nonLogActions
  rw [List.filter_cons]
  simp only [isLog, Bool.not_true, reduceIte]
  exact nonLog_flatMap_chunks device class_path minutes throttle outcomes _

/-- C6 (counterexample): with an empty resolved package list (here the
sentinel "all" and an empty `pm list packages` output) the runner does
process zero batches and performs zero invocations, but it does not emit
zero log lines — the package-count INFO line of source line 304 is
always emitted, so the action list is that one log line, not empty. -/
theorem c6_counterexample :
    execute_adb_command "D1" "A:B:C" "all" 5 500 1 [] failAllOutcomes =
      [Action.log Level.info (LogMsg.countPkgs 0)] ∧
    logCount (execute_adb_command "D1" "A:B:C" "all" 5 500 1 [] failAllOutcomes) = 1 ∧
    logCount (execute_adb_command "D1" "A:B:C" "all" 5 500 1 [] failAllOutcomes) ≠ 0 := by
  have h : execute_adb_command "D1" "A:B:C" "all" 5 500 1 [] failAllOutcomes =
      [Action.log Level.info (LogMsg.countPkgs 0)] := by
    unfold execute_adb_command
    have hres : resolvePackages "all" [] = [] := rfl
    rw [hres, mkBatches_nil]
    rfl
  refine ⟨h, ?_, ?_⟩ <;> rw [h] <;> simp [logCount, isLog]

/-- C6 (amended): with an empty resolved package list the runner
processes zero batches, performs zero Process Runner invocations, zero
joins and zero sleeps, and emits exactly one log line — the package-count
INFO line — before returning. -/
theorem c6_empty_list (device class_path package_name : String)
    (minutes throttle max_workers : Nat) (pmLines : List String)
    (outcomes : String → SpawnOutcome)
    (h : resolvePackages package_name pmLines = []) :
    execute_adb_command device class_path package_name minutes throttle
        max_workers pmLines outcomes =
      [Action.log Level.info (LogMsg.countPkgs 0)] ∧
    mkBatches 4 (resolvePackages package_name pmLines) = [] ∧
    (∀ p, Action.submit p ∉ execute_adb_command device class_path package_name
      minutes throttle max_workers pmLines outcomes) ∧
    sleepCount (execute_adb_command device class_path package_name minutes
      throttle max_workers pmLines outcomes) = 0 := by
  have hact : execute_adb_command device class_path package_name minutes
      throttle max_workers pmLines outcomes =
      [Action.log Level.info (LogMsg.countPkgs 0)] := by
    unfold execute_adb_command
    rw [h, mkBatches_nil]
    rfl
  refine ⟨hact, by rw [h]; exact mkBatches_nil 4, ?_, ?_⟩
  · intro p hp
    rw [hact] at hp
    simp at hp
  · rw [hact]
    simp [sleepCount, isSleep]

/-- Closed instance of `c6_empty_list` for the sentinel "all" and an
empty `pm list packages` output. -/
theorem c6_empty_list_witness :
    execute_adb_command "D2" "A:B:C" "all" 5 500 1 [] sampleOutcomes =
      [Action.log Level.info (LogMsg.countPkgs 0)] ∧
    mkBatches 4 (resolvePackages "all" []) = [] ∧
    (∀ p, Action.submit p ∉ execute_adb_command "D2" "A:B:C" "all" 5 500 1 []
      sampleOutcomes) ∧
    sleepCount (execute_adb_command "D2" "A:B:C" "all" 5 500 1 [] sampleOutcomes) = 0 :=
  c6_empty_list "D2" "A:B:C" "all" 5 500 1 [] sampleOutcomes rfl

/-- C5 (counterexample): the core does branch on whether the package
name equals the sentinel "all".  With the same collaborator output, the
sentinel is expanded inside the core to the parsed package list — not
treated like any other name — while any other name is passed through as
a singleton. -/
theorem c5_counterexample :
    resolvePackages "all" ["package:com.a", "package:com.b"] =
      ["com.a", "com.b"] ∧
    resolvePackages "all" ["package:com.a", "package:com.b"] ≠ ["all"] ∧
    resolvePackages "com.c" ["package:com.a", "package:com.b"] = ["com.c"] := by
  refine ⟨by decide, by decide, by decide⟩

/-- C5 (amended): the expansion of the sentinel "all" happens inside
`execute_adb_command` itself: the function branches on
`package_name == 'all'`; in the sentinel case it runs the
device-package-listing collaborator and processes the parsed list (the
count line reports the number of parsed `package:` lines), while for any
other name it processes the singleton list (the count line reports 1). -/
theorem c5_core_expands_sentinel (device class_path : String)
    (minutes throttle max_workers : Nat) (pmLines : List String)
    (outcomes : String → SpawnOutcome) (package_name : String)
    (hp : package_name ≠ "all") :
    (execute_adb_command device class_path "all" minutes throttle max_workers
        pmLines outcomes).head? =
      some (Action.log Level.info (LogMsg.countPkgs
        ((pmLines.filter (fun l => py_startswith l "package:")).length))) ∧
    (execute_adb_command device class_path package_name minutes throttle
        max_workers pmLines outcomes).head? =
      some (Action.log Level.info (LogMsg.countPkgs 1)) := by
  constructor
  · unfold execute_adb_command resolvePackages
    simp
  · unfold execute_adb_command resolvePackages
    simp [hp]

/-- Closed instance of `c5_core_expands_sentinel`: with two parsed
`package:` lines, the sentinel invocation counts 2 packages while the
invocation with the ordinary name "com.c" counts 1. -/
theorem c5_core_expands_sentinel_witness :
    (execute_adb_command "D1" "A:B:C" "all" 5 500 1
        ["package:com.a", "package:com.b"] sampleOutcomes).head? =
      some (Action.log Level.info (LogMsg.countPkgs 2)) ∧
    (execute_adb_command "D1" "A:B:C" "com.c" 5 500 1
        ["package:com.a", "package:com.b"] sampleOutcomes).head? =
      some (Action.log Level.info (LogMsg.countPkgs 1)) := by
  have h := c5_core_expands_sentinel "D1" "A:B:C" 5 500 1
    ["package:com.a", "package:com.b"] sampleOutcomes "com.c" (by decide)
  have hlen : ((["package:com.a", "package:com.b"] : List String).filter
      (fun l => py_startswith l "package:")).length = 2 := by decide
  exact ⟨by rw [h.1, hlen], h.2⟩

theorem filter_sleep_map_execPkg (batch : List String) :
    (batch.map (fun p => Action.log Level.info (LogMsg.execPkg p))).filter
      isSleep = [] := by
  induction batch with
  | nil => rfl
  | cons x xs ih => simpa [List.filter_cons, isSleep] using ih

theorem filter_sleep_map_log (l : List (Level × LogMsg)) :
    (l.map (fun lm => Action.log lm.1 lm.2)).filter isSleep = [] := by
  induction l with
  | nil => rfl
  | cons x xs ih =>
      have hx : isSleep (Action.log x.1 x.2) = false := rfl
      simp only [List.map_cons, List.filter_cons, hx]
      simpa using ih

theorem filter_sleep_submits (f : String → List (Level × LogMsg))
    (batch : List String) :
    (batch.flatMap (fun p =>
      Action.submit p :: (f p).map (fun lm => Action.log lm.1 lm.2))).filter
        isSleep = [] := by
  induction batch with
  | nil => rfl
  | cons p rest ih =>
      simp only [List.flatMap_cons, List.filter_append, List.filter_cons,
        filter_sleep_map_log, ih]
      simp [isSleep]

/-- One batch chunk contains exactly one sleep: the trailing inter-batch
delay. -/
theorem sleepCount_batchChunk (device class_path : String)
    (minutes throttle : Nat) (outcomes : String → SpawnOutcome)
    (batch : List String) :
    sleepCount (batchChunk device class_path minutes throttle outcomes batch) = 1 := by
  unfold sleepCount batchChunk
  rw [List.filter_append, List.filter_append, filter_sleep_map_execPkg,
    filter_sleep_submits]
  simp [isSleep]

theorem sleepCount_flatMap_chunks (device class_path : String)
    (minutes throttle : Nat) (outcomes : String → SpawnOutcome)
    (bs : List (List String)) :
    sleepCount (bs.flatMap (batchChunk device class_path minutes throttle outcomes)) =
      bs.length := by
  induction bs with
  | nil => rfl
  | cons b rest ih =>
      unfold sleepCount at ih ⊢
      simp only [List.flatMap_cons, List.filter_append, List.length_append,
        ih, List.length_cons]
      have := sleepCount_batchChunk device class_path minutes throttle outcomes b
      unfold sleepCount at this
      omega

theorem batchChunk_getLast (device class_path : String)
    (minutes throttle : Nat) (outcomes : String → SpawnOutcome)
    (batch : List String) :
    (batchChunk device class_path minutes throttle outcomes batch).getLast? =
      some (Action.sleep 10) := by
  unfold batchChunk
  rw [List.getLast?_append_cons]
  rfl

theorem batchChunk_ne_nil (device class_path : String)
    (minutes throttle : Nat) (outcomes : String → SpawnOutcome)
    (batch : List String) :
    batchChunk device class_path minutes throttle outcomes batch ≠ [] := by
  unfold batchChunk
  simp

theorem flatMap_chunks_getLast (device class_path : String)
    (minutes throttle : Nat) (outcomes : String → SpawnOutcome) :
    ∀ (bs : List (List String)), bs ≠ [] →
      (bs.flatMap (batchChunk device class_path minutes throttle outcomes)).getLast? =
        some (Action.sleep 10) := by
  intro bs
  induction bs with
  | nil => intro h; exact absurd rfl h
  | cons b rest ih =>
      intro _
      rw [List.flatMap_cons]
      rcases List.eq_nil_or_concat rest with hrest | _
      · subst hrest
        simp only [List.flatMap_nil, List.append_nil]
        exact batchChunk_getLast device class_path minutes throttle outcomes b
      · have hne : rest ≠ [] := by
          rintro rfl
          simp_all
        have hflat : rest.flatMap
            (batchChunk device class_path minutes throttle outcomes) ≠ [] := by
          rcases rest with _ | ⟨b', rest'⟩
          · exact absurd rfl hne
          · rw [List.flatMap_cons]
            intro hc
            rcases List.append_eq_nil.mp hc with ⟨hc1, _⟩
            exact batchChunk_ne_nil device class_path minutes throttle outcomes b' hc1
        rw [List.getLast?_append_of_ne_nil _ hflat]
        exact ih hne

/-- C7 (amended): the 10-second inter-batch delay is slept after every
batch, including the final one: a session of `k` batches performs
exactly `k` sleeps, and for a non-empty package list the final action
before `execute_adb_command` returns is the sleep that follows the last
batch's join. -/
theorem c7_sleep_after_every_batch (device class_path package_name : String)
    (minutes throttle max_workers : Nat) (pmLines : List String)
    (outcomes : String → SpawnOutcome) :
    sleepCount (execute_adb_command device class_path package_name minutes
        throttle max_workers pmLines outcomes) =
      (mkBatches 4 (resolvePackages package_name pmLines)).length ∧
    (resolvePackages package_name pmLines ≠ [] →
      (execute_adb_command device class_path package_name minutes throttle
        max_workers pmLines outcomes).getLast? = some (Action.sleep 10)) := by
  constructor
  · unfold execute_adb_command sleepCount
    rw [List.filter_cons]
    have hhead : isSleep (Action.log Level.info
        (LogMsg.countPkgs (resolvePackages package_name pmLines).length)) = false := rfl
    rw [hhead]
    simp only [Bool.false_eq_true, reduceIte]
    exact sleepCount_flatMap_chunks device class_path minutes throttle outcomes _
  · intro hne
    unfold execute_adb_command
    have hbs : mkBatches 4 (resolvePackages package_name pmLines) ≠ [] :=
      mkBatches_ne_nil _ hne
    have hflat : (mkBatches 4 (resolvePackages package_name pmLines)).flatMap
        (batchChunk device class_path minutes throttle outcomes) ≠ [] := by
      rcases hmk : mkBatches 4 (resolvePackages package_name pmLines) with _ | ⟨b, bs⟩
      · exact absurd hmk hbs
      · rw [List.flatMap_cons]
        intro hc
        rcases List.append_eq_nil.mp hc with ⟨hc1, _⟩
        exact batchChunk_ne_nil device class_path minutes throttle outcomes b hc1
    rw [show (Action.log Level.info
        (LogMsg.countPkgs (resolvePackages package_name pmLines).length) ::
        (mkBatches 4 (resolvePackages package_name pmLines)).flatMap
          (batchChunk device class_path minutes throttle outcomes)) =
        [Action.log Level.info
          (LogMsg.countPkgs (resolvePackages package_name pmLines).length)] ++
        (mkBatches 4 (resolvePackages package_name pmLines)).flatMap
          (batchChunk device class_path minutes throttle outcomes) from rfl]
    rw [List.getLast?_append_of_ne_nil _ hflat]
    exact flatMap_chunks_getLast device class_path minutes throttle outcomes _ hbs

/-- Closed instance of `c7_sleep_after_every_batch` at a one-package
list: one batch, one sleep, and the final action is the sleep. -/
theorem c7_sleep_after_every_batch_witness :
    sleepCount (execute_adb_command "D1" "A:B:C" "com.x" 5 500 1 [] sampleOutcomes) =
      (mkBatches 4 (resolvePackages "com.x" [])).length ∧
    (execute_adb_command "D1" "A:B:C" "com.x" 5 500 1 [] sampleOutcomes).getLast? =
      some (Action.sleep 10) :=
  ⟨(c7_sleep_after_every_batch "D1" "A:B:C" "com.x" 5 500 1 [] sampleOutcomes).1,
    (c7_sleep_after_every_batch "D1" "A:B:C" "com.x" 5 500 1 [] sampleOutcomes).2
      (by decide)⟩

/-- C7 (counterexample): a one-package list yields exactly one batch,
yet one sleep occurs (not `k - 1 = 0`) and the sleep follows the final
batch — the source sleeps inside the loop after every join, including
the last. -/
theorem c7_counterexample :
    (mkBatches 4 (resolvePackages "com.y" [])).length = 1 ∧
    sleepCount (execute_adb_command "D3" "A:B:C" "com.y" 5 500 1 [] sampleOutcomes) = 1 ∧
    sleepCount (execute_adb_command "D3" "A:B:C" "com.y" 5 500 1 [] sampleOutcomes) ≠ 0 ∧
    (execute_adb_command "D3" "A:B:C" "com.y" 5 500 1 [] sampleOutcomes).getLast? =
      some (Action.sleep 10) := by
  have hres : resolvePackages "com.y" [] = ["com.y"] := by decide
  have hlen : (mkBatches 4 (resolvePackages "com.y" [])).length = 1 := by
    rw [hres, mkBatches4_singleton]
    rfl
  have hcount : sleepCount (execute_adb_command "D3" "A:B:C" "com.y" 5 500 1 []
      sampleOutcomes) = 1 := by
    unfold execute_adb_command sleepCount
    rw [List.filter_cons]
    have hhead : isSleep (Action.log Level.info
        (LogMsg.countPkgs (resolvePackages "com.y" []).length)) = false := rfl
    rw [hhead]
    simp only [Bool.false_eq_true, reduceIte]
    have := sleepCount_flatMap_chunks "D3" "A:B:C" 5 500 sampleOutcomes
      (mkBatches 4 (resolvePackages "com.y" []))
    unfold sleepCount at this
    rw [this, hlen]
  refine ⟨hlen, hcount, by rw [hcount]; omega, ?_⟩
  · unfold execute_adb_command
    have hbs : mkBatches 4 (resolvePackages "com.y" []) ≠ [] := by
      rw [hres]
      exact mkBatches_ne_nil _ (by simp)
    have hflat : (mkBatches 4 (resolvePackages "com.y" [])).flatMap
        (batchChunk "D3" "A:B:C" 5 500 sampleOutcomes) ≠ [] := by
      rw [hres, mkBatches4_singleton, List.flatMap_cons]
      intro hc
      rcases List.append_eq_nil.mp hc with ⟨hc1, _⟩
      exact batchChunk_ne_nil "D3" "A:B:C" 5 500 sampleOutcomes ["com.y"] hc1
    rw [show (Action.log Level.info
        (LogMsg.countPkgs (resolvePackages "com.y" []).length) ::
        (mkBatches 4 (resolvePackages "com.y" [])).flatMap
          (batchChunk "D3" "A:B:C" 5 500 sampleOutcomes)) =
        [Action.log Level.info
          (LogMsg.countPkgs (resolvePackages "com.y" []).length)] ++
        (mkBatches 4 (resolvePackages "com.y" [])).flatMap
          (batchChunk "D3" "A:B:C" 5 500 sampleOutcomes) from rfl]
    rw [List.getLast?_append_of_ne_nil _ hflat]
    exact flatMap_chunks_getLast "D3" "A:B:C" 5 500 sampleOutcomes _ hbs

theorem filter_map_eq_filterMap (p : α → Bool) (f : α → β) (l : List α) :
    (l.filter p).map f =
      l.filterMap (fun a => if p a then some (f a) else none) := by
  induction l with
  | nil => rfl
  | cons x xs ih =>
      by_cases hx : p x
      · simp [List.filter_cons, List.filterMap_cons, hx, ih]
      · simp [List.filter_cons, List.filterMap_cons, hx, ih]

/-- C10: the package list the runner processes is, for the sentinel
"all", exactly the second colon-separated field of each `pm list
packages` output line starting with `package:`, in output order; for
every other name it is the singleton containing that name, which yields
exactly one batch containing that one package. -/
theorem c10_package_list (pmLines : List String) (package_name : String)
    (hp : package_name ≠ "all") :
    resolvePackages "all" pmLines = claimPackageList pmLines ∧
    resolvePackages package_name pmLines = [package_name] ∧
    mkBatches 4 (resolvePackages package_name pmLines) = [[package_name]] := by
  refine ⟨?_, ?_, ?_⟩
  · unfold resolvePackages claimPackageList splitSecondField
    rw [if_pos rfl]
    exact filter_map_eq_filterMap _ _ pmLines
  · unfold resolvePackages
    rw [if_neg hp]
  · unfold resolvePackages
    rw [if_neg hp]
    exact mkBatches4_singleton package_name

/-- Closed instance of `c10_package_list` at a two-line pm output and
the ordinary package name "com.x". -/
theorem c10_package_list_witness :
    resolvePackages "all" ["package:com.a", "junk"] =
      claimPackageList ["package:com.a", "junk"] ∧
    resolvePackages "com.x" ["package:com.a", "junk"] = ["com.x"] ∧
    mkBatches 4 (resolvePackages "com.x" ["package:com.a", "junk"]) =
      [["com.x"]] :=
  c10_package_list ["package:com.a", "junk"] "com.x" (by decide)

theorem submit_mem_execute (device class_path package_name : String)
    (minutes throttle max_workers : Nat) (pmLines : List String)
    (outcomes : String → SpawnOutcome) (p : String)
    (hp : p ∈ resolvePackages package_name pmLines) :
    Action.submit p ∈ execute_adb_command device class_path package_name
      minutes throttle max_workers pmLines outcomes := by
  have hflat : p ∈ (mkBatches 4 (resolvePackages package_name pmLines)).flatten := by
    rw [mkBatches4_join_le _ _ le_rfl]
    exact hp
  obtain ⟨batch, hbmem, hpb⟩ := List.mem_flatten.mp hflat
  unfold execute_adb_command
  apply List.mem_cons_of_mem
  apply List.mem_flatMap.mpr
  refine ⟨batch, hbmem, ?_⟩
  unfold batchChunk
  apply List.mem_append_left
  apply List.mem_append_right
  apply List.mem_flatMap.mpr
  exact ⟨p, hpb, List.mem_cons_self _ _⟩

/-- C3: an individual failing run (spawn failure, stream-read failure,
or non-zero exit) never escapes `run_monkey_command` as an exception —
the function returns normally and its last log line is at ERROR level —
and it never aborts the batch or the session: the control skeleton of
`execute_adb_command` (submissions, joins, sleeps) is identical for any
two assignments of process outcomes, and every resolved package is
submitted no matter how the others fail. -/
theorem c3_failure_isolation (device class_path pkg package_name : String)
    (minutes throttle max_workers : Nat) (pmLines : List String)
    (outcomes outcomes' : String → SpawnOutcome) (o : SpawnOutcome)
    (ho : RunFails o) (p : String)
    (hp : p ∈ resolvePackages package_name pmLines) :
    (run_monkey_command device class_path pkg minutes throttle o).getLast?.map
        Prod.fst = some Level.error ∧
    nonLogActions (execute_adb_command device class_path package_name minutes
        throttle max_workers pmLines outcomes) =
      nonLogActions (execute_adb_command device class_path package_name minutes
        throttle max_workers pmLines outcomes') ∧
    Action.submit p ∈ execute_adb_command device class_path package_name
      minutes throttle max_workers pmLines outcomes := by
  refine ⟨?_, ?_, ?_⟩
  · rcases o with e | ⟨lines, re, rc⟩
    · rw [show run_monkey_command device class_path pkg minutes throttle
          (SpawnOutcome.raises e) =
          [(Level.info, LogMsg.execCmd (monkey_cmd device class_path pkg
            minutes throttle)),
           (Level.info, LogMsg.runParams minutes throttle), handleExc e] from rfl]
      simp [handleExc_fst e]
    · rcases re with _ | e
      · by_cases hrc : rc = 0
        · exfalso
          subst hrc
          simp [RunFails] at ho
        · have hrun : run_monkey_command device class_path pkg minutes throttle
              (SpawnOutcome.spawned ⟨lines, none, rc⟩) =
              ((Level.info, LogMsg.execCmd (monkey_cmd device class_path pkg
                  minutes throttle)) ::
                (Level.info, LogMsg.runParams minutes throttle) ::
                lines.map (fun l => (Level.info, LogMsg.outputLine (py_strip l)))) ++
              [handleExc (PyExc.attributeError "NoneType object has no attribute read")] := by
            unfold run_monkey_command tryBody stderrRead
            simp [hrc]
          rw [hrun, List.getLast?_concat]
          simp [handleExc_fst]
      · have hrun : run_monkey_command device class_path pkg minutes throttle
            (SpawnOutcome.spawned ⟨lines, some e, rc⟩) =
            ((Level.info, LogMsg.execCmd (monkey_cmd device class_path pkg
                minutes throttle)) ::
              (Level.info, LogMsg.runParams minutes throttle) ::
              lines.map (fun l => (Level.info, LogMsg.outputLine (py_strip l)))) ++
            [handleExc e] := by
          unfold run_monkey_command tryBody
          simp
        rw [hrun, List.getLast?_concat]
        simp [handleExc_fst]
  · rw [nonLog_execute, nonLog_execute]
  · exact submit_mem_execute device class_path package_name minutes throttle
      max_workers pmLines outcomes p hp

/-- Closed instance of `c3_failure_isolation`: a run that exits with
code 1 ends in an ERROR log line; swapping every outcome for a spawn
failure leaves the session skeleton unchanged; the sole resolved package
is still submitted. -/
theorem c3_failure_isolation_witness :
    (run_monkey_command "D1" "A:B:C" "com.x" 5 500 c3FailOutcome).getLast?.map
        Prod.fst = some Level.error ∧
    nonLogActions (execute_adb_command "D1" "A:B:C" "com.x" 5 500 1 []
        sampleOutcomes) =
      nonLogActions (execute_adb_command "D1" "A:B:C" "com.x" 5 500 1 []
        failAllOutcomes) ∧
    Action.submit "com.x" ∈ execute_adb_command "D1" "A:B:C" "com.x" 5 500 1 []
      sampleOutcomes :=
  c3_failure_isolation "D1" "A:B:C" "com.x" "com.x" 5 500 1 []
    sampleOutcomes failAllOutcomes c3FailOutcome
    (Or.inr (by decide)) "com.x" (by decide)

theorem inv_init (sizes : List Nat) : Inv sizes initState := by
  refine ⟨?_, ?_, ?_, ?_, ?_, ?_⟩
  · intro l hl
    exact Option.noConfusion hl
  · intro l i hl
    exact Option.noConfusion hl
  · intro l i t hl
    exact Option.noConfusion hl
  · intro b hb
    exact absurd hb (Nat.not_lt_zero b)
  · intro b i h
    rcases h with h | h <;> simp [initState] at h
  · intro l₁ b i l₂ hsplit
    simp [initState] at hsplit

theorem inv_step {sizes : List Nat} {W : Nat} {s s' : RState}
    (hstep : PStep sizes W s s') (hinv : Inv sizes s) : Inv sizes s' := by
  obtain ⟨curLen, finIff, startIff, doneEv, evBound, history⟩ := hinv
  cases hstep with
  | submit hc hd =>
      refine ⟨?_, ?_, ?_, ?_, ?_, ?_⟩
      · intro l hl
        dsimp only at hl ⊢
        injection hl with hl
        subst hl
        exact ⟨hd, by simp⟩
      · intro l i hl
        dsimp only at hl ⊢
        injection hl with hl
        subst hl
        constructor
        · intro hget
          rw [List.getElem?_replicate] at hget
          split at hget <;> simp at hget
        · intro hmem
          rcases evBound s.done i (Or.inr hmem) with h | ⟨hcur, _⟩
          · omega
          · exact absurd hc hcur
      · intro l i t hl hget
        dsimp only at hl hget ⊢
        injection hl with hl
        subst hl
        rw [List.getElem?_replicate] at hget
        constructor
        · intro hne
          split at hget
          · exact absurd (Option.some.inj hget).symm hne
          · exact absurd hget (by simp)
        · intro hmem
          rcases evBound s.done i (Or.inl hmem) with h | ⟨hcur, _⟩
          · omega
          · exact absurd hc hcur
      · intro b hb i hi
        exact doneEv b hb i hi
      · intro b i h
        dsimp only at h ⊢
        rcases evBound b i h with h' | ⟨hcur, _⟩
        · exact Or.inl h'
        · exact absurd hc hcur
      · intro l₁ b i l₂ hsplit
        exact history l₁ b i l₂ hsplit
  | start l i0 hc hget hw =>
      refine ⟨?_, ?_, ?_, ?_, ?_, ?_⟩
      · intro l' hl'
        dsimp only at hl' ⊢
        injection hl' with hl'
        subst hl'
        obtain ⟨h1, h2⟩ := curLen l hc
        exact ⟨h1, by simpa using h2⟩
      · intro l' j hl'
        dsimp only at hl' ⊢
        injection hl' with hl'
        subst hl'
        by_cases hij : i0 = j
        · subst hij
          rw [List.getElem?_set_self', hget]
          constructor
          · intro h
            simp at h
          · intro hmem
            rcases List.mem_cons.mp hmem with heq | hmem'
            · exact PEvent.noConfusion heq
            · have hfin := (finIff l i0 hc).mpr hmem'
              rw [hget] at hfin
              simp at hfin
        · rw [List.getElem?_set_ne hij]
          constructor
          · intro h
            exact List.mem_cons_of_mem _ ((finIff l j hc).mp h)
          · intro hmem
            rcases List.mem_cons.mp hmem with heq | hmem'
            · exact PEvent.noConfusion heq
            · exact (finIff l j hc).mpr hmem'
      · intro l' j t hl' hget'
        dsimp only at hl' hget' ⊢
        injection hl' with hl'
        subst hl'
        by_cases hij : i0 = j
        · subst hij
          rw [List.getElem?_set_self', hget] at hget'
          have hget2 : some TStatus.started = some t := hget'
          have ht : t = TStatus.started := (Option.some.inj hget2).symm
          subst ht
          constructor
          · intro _
            exact List.mem_cons_self _ _
          · intro _
            decide
        · rw [List.getElem?_set_ne hij] at hget'
          constructor
          · intro hne
            exact List.mem_cons_of_mem _ ((startIff l j t hc hget').mp hne)
          · intro hmem
            rcases List.mem_cons.mp hmem with heq | hmem'
            · injection heq with h1 h2
              exact absurd h2.symm hij
            · exact (startIff l j t hc hget').mpr hmem'
      · intro b hb j hj
        dsimp only at hb ⊢
        obtain ⟨h1, h2⟩ := doneEv b hb j hj
        exact ⟨List.mem_cons_of_mem _ h1, List.mem_cons_of_mem _ h2⟩
      · intro b j h
        dsimp only at h ⊢
        rcases h with h | h
        · rcases List.mem_cons.mp h with heq | hmem
          · injection heq with h1 h2
            exact Or.inr ⟨by simp, h1⟩
          · rcases evBound b j (Or.inl hmem) with h' | ⟨_, hb⟩
            · exact Or.inl h'
            · exact Or.inr ⟨by simp, hb⟩
        · rcases List.mem_cons.mp h with heq | hmem
          · exact PEvent.noConfusion heq
          · rcases evBound b j (Or.inr hmem) with h' | ⟨_, hb⟩
            · exact Or.inl h'
            · exact Or.inr ⟨by simp, hb⟩
      · intro l₁ b j l₂ hsplit
        dsimp only at hsplit ⊢
        rcases l₁ with _ | ⟨x, l₁'⟩
        · simp only [List.nil_append] at hsplit
          injection hsplit with h1 h2
          injection h1 with hb hi
          intro b' hb' i' hi'
          rw [← h2]
          exact (doneEv b' (by omega) i' hi').1
        · rw [List.cons_append] at hsplit
          injection hsplit with h1 h2
          exact history l₁' b j l₂ h2
  | finish l i0 hc hget =>
      refine ⟨?_, ?_, ?_, ?_, ?_, ?_⟩
      · intro l' hl'
        dsimp only at hl' ⊢
        injection hl' with hl'
        subst hl'
        obtain ⟨h1, h2⟩ := curLen l hc
        exact ⟨h1, by simpa using h2⟩
      · intro l' j hl'
        dsimp only at hl' ⊢
        injection hl' with hl'
        subst hl'
        by_cases hij : i0 = j
        · subst hij
          rw [List.getElem?_set_self', hget]
          constructor
          · intro _
            exact List.mem_cons_self _ _
          · intro _
            rfl
        · rw [List.getElem?_set_ne hij]
          constructor
          · intro h
            exact List.mem_cons_of_mem _ ((finIff l j hc).mp h)
          · intro hmem
            rcases List.mem_cons.mp hmem with heq | hmem'
            · injection heq with h1 h2
              exact absurd h2.symm hij
            · exact (finIff l j hc).mpr hmem'
      · intro l' j t hl' hget'
        dsimp only at hl' hget' ⊢
        injection hl' with hl'
        subst hl'
        by_cases hij : i0 = j
        · subst hij
          rw [List.getElem?_set_self', hget] at hget'
          have hget2 : some TStatus.finished = some t := hget'
          have ht : t = TStatus.finished := (Option.some.inj hget2).symm
          subst ht
          have hstart := (startIff l i0 TStatus.started hc hget).mp (by decide)
          constructor
          · intro _
            exact List.mem_cons_of_mem _ hstart
          · intro _
            decide
        · rw [List.getElem?_set_ne hij] at hget'
          constructor
          · intro hne
            exact List.mem_cons_of_mem _ ((startIff l j t hc hget').mp hne)
          · intro hmem
            rcases List.mem_cons.mp hmem with heq | hmem'
            · exact PEvent.noConfusion heq
            · exact (startIff l j t hc hget').mpr hmem'
      · intro b hb j hj
        dsimp only at hb ⊢
        obtain ⟨h1, h2⟩ := doneEv b hb j hj
        exact ⟨List.mem_cons_of_mem _ h1, List.mem_cons_of_mem _ h2⟩
      · intro b j h
        dsimp only at h ⊢
        rcases h with h | h
        · rcases List.mem_cons.mp h with heq | hmem
          · exact PEvent.noConfusion heq
          · rcases evBound b j (Or.inl hmem) with h' | ⟨_, hb⟩
            · exact Or.inl h'
            · exact Or.inr ⟨by simp, hb⟩
        · rcases List.mem_cons.mp h with heq | hmem
          · injection heq with h1 h2
            exact Or.inr ⟨by simp, h1⟩
          · rcases evBound b j (Or.inr hmem) with h' | ⟨_, hb⟩
            · exact Or.inl h'
            · exact Or.inr ⟨by simp, hb⟩
      · intro l₁ b j l₂ hsplit
        dsimp only at hsplit ⊢
        rcases l₁ with _ | ⟨x, l₁'⟩
        · simp only [List.nil_append] at hsplit
          injection hsplit with h1 h2
          exact PEvent.noConfusion h1
        · rw [List.cons_append] at hsplit
          injection hsplit with h1 h2
          exact history l₁' b j l₂ h2
  | join l hc hall =>
      refine ⟨?_, ?_, ?_, ?_, ?_, ?_⟩
      · intro l' hl'
        exact Option.noConfusion hl'
      · intro l' j hl'
        exact Option.noConfusion hl'
      · intro l' j t hl'
        exact Option.noConfusion hl'
      · intro b hb j hj
        dsimp only at hb hj ⊢
        by_cases hbs : b < s.done
        · exact doneEv b hbs j hj
        · have hbd : b = s.done := by omega
          subst hbd
          obtain ⟨hdlt, hlen⟩ := curLen l hc
          have hjl : j < l.length := by omega
          have hfin : l[j]? = some TStatus.finished := by
            rw [List.getElem?_eq_some_iff]
            exact ⟨hjl, hall _ (l.getElem_mem hjl)⟩
          refine ⟨(finIff l j hc).mp hfin, ?_⟩
          exact (startIff l j TStatus.finished hc hfin).mp (by decide)
      · intro b j h
        dsimp only at h ⊢
        rcases evBound b j h with h' | ⟨_, hb⟩
        · exact Or.inl (by omega)
        · exact Or.inl (by omega)
      · intro l₁ b j l₂ hsplit
        exact history l₁ b j l₂ hsplit

theorem reachable_inv (sizes : List Nat) (W : Nat) (s : RState)
    (h : Reachable sizes W s) : Inv sizes s := by
  induction h with
  | refl => exact inv_init sizes
  | tail hab hbc ih => exact inv_step hbc ih

/-- C2: batch-to-batch execution is strictly sequential.  In every
reachable state of the pool model, whenever the trace records the start
of a task of batch `b`, the finish events of every task of every earlier
batch occur strictly earlier in the trace: no invocation of batch `N+1`
starts before every invocation of batch `N` has completed, because the
orchestrator blocks on each future of a batch before submitting the
next. -/
theorem c2_batches_sequential (sizes : List Nat) (W : Nat) (s : RState)
    (hs : Reachable sizes W s) (l₁ l₂ : List PEvent) (b i : Nat)
    (hsplit : s.events = l₁ ++ PEvent.start b i :: l₂)
    (b' i' : Nat) (hb : b' < b) (hi : i' < sizes.getD b' 0) :
    PEvent.finish b' i' ∈ l₂ :=
  (reachable_inv sizes W s hs).history l₁ b i l₂ hsplit b' hb i' hi

theorem c2_reach_example :
    Reachable [1, 1] 1
      ⟨1, some [TStatus.started],
        [PEvent.start 1 0, PEvent.finish 0 0, PEvent.start 0 0]⟩ := by
  have h1 : PStep [1, 1] 1 initState ⟨0, some [TStatus.pending], []⟩ :=
    PStep.submit initState rfl (by decide)
  have h2 : PStep [1, 1] 1 ⟨0, some [TStatus.pending], []⟩
      ⟨0, some [TStatus.started], [PEvent.start 0 0]⟩ :=
    PStep.start _ [TStatus.pending] 0 rfl rfl (by decide)
  have h3 : PStep [1, 1] 1 ⟨0, some [TStatus.started], [PEvent.start 0 0]⟩
      ⟨0, some [TStatus.finished], [PEvent.finish 0 0, PEvent.start 0 0]⟩ :=
    PStep.finish _ [TStatus.started] 0 rfl rfl
  have h4 : PStep [1, 1] 1
      ⟨0, some [TStatus.finished], [PEvent.finish 0 0, PEvent.start 0 0]⟩
      ⟨1, none, [PEvent.finish 0 0, PEvent.start 0 0]⟩ :=
    PStep.join _ [TStatus.finished] rfl (by decide)
  have h5 : PStep [1, 1] 1
      ⟨1, none, [PEvent.finish 0 0, PEvent.start 0 0]⟩
      ⟨1, some [TStatus.pending], [PEvent.finish 0 0, PEvent.start 0 0]⟩ :=
    PStep.submit _ rfl (by decide)
  have h6 : PStep [1, 1] 1
      ⟨1, some [TStatus.pending], [PEvent.finish 0 0, PEvent.start 0 0]⟩
      ⟨1, some [TStatus.started],
        [PEvent.start 1 0, PEvent.finish 0 0, PEvent.start 0 0]⟩ :=
    PStep.start _ [TStatus.pending] 0 rfl rfl (by decide)
  exact Relation.ReflTransGen.tail
    (Relation.ReflTransGen.tail
      (Relation.ReflTransGen.tail
        (Relation.ReflTransGen.tail
          (Relation.ReflTransGen.tail (Relation.ReflTransGen.single h1) h2)
          h3)
        h4)
      h5)
    h6

/-- Closed instance of `c2_batches_sequential`: a two-batch session of
one task each, with the start of the batch-1 task recorded; the finish
of the batch-0 task occurs earlier in the trace. -/
theorem c2_batches_sequential_witness :
    Reachable [1, 1] 1
      ⟨1, some [TStatus.started],
        [PEvent.start 1 0, PEvent.finish 0 0, PEvent.start 0 0]⟩ ∧
    PEvent.finish 0 0 ∈ [PEvent.finish 0 0, PEvent.start 0 0] :=
  ⟨c2_reach_example,
    c2_batches_sequential [1, 1] 1
      ⟨1, some [TStatus.started],
        [PEvent.start 1 0, PEvent.finish 0 0, PEvent.start 0 0]⟩
      c2_reach_example [] [PEvent.finish 0 0, PEvent.start 0 0] 1 0 rfl 0 0
      (by decide) (by decide)⟩

/-- C9 (counterexample): with a batch of size `K = 2` and worker bound
`W = 2 ≥ K`, the pool model reaches an execution in which task 1 starts
only after task 0 has already finished — the two lifetimes do not
overlap, so "every invocation in the batch starts before any sibling
finishes" does not hold of every execution.  The pool submits all tasks
together but enforces no start barrier. -/
theorem c9_counterexample :
    Reachable [2] 2
      ⟨0, some [TStatus.finished, TStatus.finished],
        [PEvent.finish 0 1, PEvent.start 0 1, PEvent.finish 0 0,
          PEvent.start 0 0]⟩ ∧
    occursBefore
      [PEvent.finish 0 1, PEvent.start 0 1, PEvent.finish 0 0, PEvent.start 0 0]
      (PEvent.start 0 1) (PEvent.finish 0 0) = false ∧
    PEvent.start 0 1 ∈ ([PEvent.finish 0 1, PEvent.start 0 1,
      PEvent.finish 0 0, PEvent.start 0 0] : List PEvent) ∧
    PEvent.finish 0 0 ∈ ([PEvent.finish 0 1, PEvent.start 0 1,
      PEvent.finish 0 0, PEvent.start 0 0] : List PEvent) := by
  refine ⟨?_, by decide, by decide, by decide⟩
  have h1 : PStep [2] 2 initState
      ⟨0, some [TStatus.pending, TStatus.pending], []⟩ :=
    PStep.submit initState rfl (by decide)
  have h2 : PStep [2] 2 ⟨0, some [TStatus.pending, TStatus.pending], []⟩
      ⟨0, some [TStatus.started, TStatus.pending], [PEvent.start 0 0]⟩ :=
    PStep.start _ [TStatus.pending, TStatus.pending] 0 rfl rfl (by decide)
  have h3 : PStep [2] 2
      ⟨0, some [TStatus.started, TStatus.pending], [PEvent.start 0 0]⟩
      ⟨0, some [TStatus.finished, TStatus.pending],
        [PEvent.finish 0 0, PEvent.start 0 0]⟩ :=
    PStep.finish _ [TStatus.started, TStatus.pending] 0 rfl rfl
  have h4 : PStep [2] 2
      ⟨0, some [TStatus.finished, TStatus.pending],
        [PEvent.finish 0 0, PEvent.start 0 0]⟩
      ⟨0, some [TStatus.finished, TStatus.started],
        [PEvent.start 0 1, PEvent.finish 0 0, PEvent.start 0 0]⟩ :=
    PStep.start _ [TStatus.finished, TStatus.pending] 1 rfl rfl (by decide)
  have h5 : PStep [2] 2
      ⟨0, some [TStatus.finished, TStatus.started],
        [PEvent.start 0 1, PEvent.finish 0 0, PEvent.start 0 0]⟩
      ⟨0, some [TStatus.finished, TStatus.finished],
        [PEvent.finish 0 1, PEvent.start 0 1, PEvent.finish 0 0,
          PEvent.start 0 0]⟩ :=
    PStep.finish _ [TStatus.finished, TStatus.started] 1 rfl rfl
  exact Relation.ReflTransGen.tail
    (Relation.ReflTransGen.tail
      (Relation.ReflTransGen.tail
        (Relation.ReflTransGen.tail (Relation.ReflTransGen.single h1) h2)
        h3)
      h4)
    h5

theorem stlist_cons (a b : Nat) (x y : TStatus) :
    stlist (a + 1) b x y = x :: stlist a b x y := by
  simp [stlist, List.replicate_succ]

theorem stlist_set (a b' : Nat) (x y : TStatus) :
    (stlist a (b' + 1) x y).set a x = stlist (a + 1) b' x y := by
  induction a with
  | zero =>
      simp [stlist, List.replicate_succ]
  | succ a ih =>
      rw [stlist_cons, List.set_cons_succ, ih, ← stlist_cons]

theorem stlist_getElem?_boundary (a b' : Nat) (x y : TStatus) :
    (stlist a (b' + 1) x y)[a]? = some y := by
  unfold stlist
  rw [List.getElem?_append_right (by simp)]
  simp [List.getElem?_replicate]

theorem runningCount_sp (a b : Nat) :
    runningCount (stlist a b TStatus.started TStatus.pending) = a := by
  unfold runningCount stlist
  rw [List.filter_append, List.filter_replicate, List.filter_replicate]
  simp

/-- First phase of the all-overlap execution: after submitting the
single batch of size `K`, the first `j` tasks have started and none has
finished. -/
theorem c9_start_phase (K W : Nat) (hW : K ≤ W) :
    ∀ j, j ≤ K →
      Reachable [K] W
        ⟨0, some (stlist j (K - j) TStatus.started TStatus.pending),
          startsEv j⟩ := by
  intro j
  induction j with
  | zero =>
      intro _
      have h1 : PStep [K] W initState
          ⟨0, some (stlist 0 (K - 0) TStatus.started TStatus.pending),
            startsEv 0⟩ :=
        PStep.submit initState rfl (by simp [initState])
      exact Relation.ReflTransGen.single h1
  | succ j ih =>
      intro hj
      have hreach := ih (by omega)
      have e : K - j = (K - j - 1) + 1 := by omega
      have hget : (stlist j (K - j) TStatus.started TStatus.pending)[j]? =
          some TStatus.pending := by
        rw [e]
        exact stlist_getElem?_boundary j (K - j - 1) _ _
      have hw : runningCount (stlist j (K - j) TStatus.started TStatus.pending) < W := by
        rw [runningCount_sp]
        omega
      have hstep : PStep [K] W
          ⟨0, some (stlist j (K - j) TStatus.started TStatus.pending),
            startsEv j⟩
          ⟨0, some ((stlist j (K - j) TStatus.started TStatus.pending).set j
              TStatus.started),
            PEvent.start 0 j :: startsEv j⟩ :=
        PStep.start _ _ j rfl hget hw
      have hstate : (stlist j (K - j) TStatus.started TStatus.pending).set j
          TStatus.started =
          stlist (j + 1) (K - (j + 1)) TStatus.started TStatus.pending := by
        have e2 : K - j - 1 = K - (j + 1) := by omega
        rw [e, stlist_set, e2]
      rw [hstate] at hstep
      exact Relation.ReflTransGen.tail hreach hstep

/-- Second phase of the all-overlap execution: with all `K` tasks
started, the first `j` tasks have finished. -/
theorem c9_finish_phase (K W : Nat) (hW : K ≤ W) :
    ∀ j, j ≤ K →
      Reachable [K] W
        ⟨0, some (stlist j (K - j) TStatus.finished TStatus.started),
          finishEv j ++ startsEv K⟩ := by
  intro j
  induction j with
  | zero =>
      intro _
      have h0 := c9_start_phase K W hW K le_rfl
      have he : stlist K (K - K) TStatus.started TStatus.pending =
          stlist 0 (K - 0) TStatus.finished TStatus.started := by
        have hKK : K - K = 0 := by omega
        rw [hKK]
        simp [stlist]
      rw [he] at h0
      exact h0
  | succ j ih =>
      intro hj
      have hreach := ih (by omega)
      have e : K - j = (K - j - 1) + 1 := by omega
      have hget : (stlist j (K - j) TStatus.finished TStatus.started)[j]? =
          some TStatus.started := by
        rw [e]
        exact stlist_getElem?_boundary j (K - j - 1) _ _
      have hstep : PStep [K] W
          ⟨0, some (stlist j (K - j) TStatus.finished TStatus.started),
            finishEv j ++ startsEv K⟩
          ⟨0, some ((stlist j (K - j) TStatus.finished TStatus.started).set j
              TStatus.finished),
            PEvent.finish 0 j :: (finishEv j ++ startsEv K)⟩ :=
        PStep.finish _ _ j rfl hget
      have hstate : (stlist j (K - j) TStatus.finished TStatus.started).set j
          TStatus.finished =
          stlist (j + 1) (K - (j + 1)) TStatus.finished TStatus.started := by
        have e2 : K - j - 1 = K - (j + 1) := by omega
        rw [e, stlist_set, e2]
      rw [hstate] at hstep
      exact Relation.ReflTransGen.tail hreach hstep

theorem startsEv_mem (K i : Nat) (h : i < K) : PEvent.start 0 i ∈ startsEv K := by
  induction K with
  | zero => omega
  | succ K ih =>
      by_cases hiK : i = K
      · subst hiK
        exact List.mem_cons_self _ _
      · exact List.mem_cons_of_mem _ (ih (by omega))

theorem finishEv_mem (K j : Nat) (h : j < K) : PEvent.finish 0 j ∈ finishEv K := by
  induction K with
  | zero => omega
  | succ K ih =>
      by_cases hjK : j = K
      · subst hjK
        exact List.mem_cons_self _ _
      · exact List.mem_cons_of_mem _ (ih (by omega))

theorem occursBefore_append (F S : List PEvent) (a b : PEvent)
    (hb : b ∈ F) (ha : a ∈ S) : occursBefore (F ++ S) a b = true := by
  induction F with
  | nil => cases hb
  | cons x F ih =>
      rcases List.mem_cons.mp hb with rfl | hb'
      · have hany : (F ++ S).any (fun y => decide (y = a)) = true :=
          List.any_eq_true.mpr ⟨a, List.mem_append_right _ ha, by simp⟩
        simp [occursBefore, hany]
      · simp [occursBefore, ih hb']

/-- C9 (amended): when the worker bound is at least the batch size
(`K ≤ W`, `K > 1`), the pool admits an execution in which all `K`
invocations of the batch run with overlapping lifetimes — every task
starts before any task finishes — so the bound never forces
serialization; by `c9_counterexample` this overlap is possible but not
guaranteed in every execution. -/
theorem c9_overlap_possible (K W : Nat) (hK : 1 < K) (hW : K ≤ W) :
    ∃ s : RState, Reachable [K] W s ∧
      s.events = finishEv K ++ startsEv K ∧
      ∀ i j, i < K → j < K →
        occursBefore s.events (PEvent.start 0 i) (PEvent.finish 0 j) = true := by
  refine ⟨⟨0, some (stlist K (K - K) TStatus.finished TStatus.started),
    finishEv K ++ startsEv K⟩, c9_finish_phase K W hW K le_rfl, rfl, ?_⟩
  intro i j hi hj
  exact occursBefore_append (finishEv K) (startsEv K) _ _ (finishEv_mem K j hj)
    (startsEv_mem K i hi)

/-- Closed instance of `c9_overlap_possible` at `K = W = 2`: in the
all-overlap execution, invocation 1 starts before invocation 0
finishes. -/
theorem c9_overlap_possible_witness :
    occursBefore (finishEv 2 ++ startsEv 2) (PEvent.start 0 1)
      (PEvent.finish 0 0) = true := by
  obtain ⟨s, hs, hev, hov⟩ := c9_overlap_possible 2 2 (by decide) (by decide)
  have h := hov 1 0 (by decide) (by decide)
  rw [hev] at h
  exact h

end MonkeyProTest
